import Mathlib

/-!
Verification of the revenue engine of PalmRunLLC
(server/routes: accrual allocator, period filter, deposit ledger,
revenue aggregation from the admin revenue-summary route).

The JavaScript source works with UTC timestamps at day granularity
(`parseDateOnly` strips time-of-day; `DAY_IN_MS` division is exact on
such dates).  We embed calendar dates as explicit (year, month, day)
triples and timestamps as day numbers counted from an epoch placed at
2024-01-01 (the epoch choice only shifts every day number by a fixed
constant and is invisible to all differences and comparisons).
Months are embedded as integer month indices (0 = January 2024);
the JS code represents a month by the UTC timestamp of its first day
and steps months with `Date.UTC(y, m + 1, 1)`, which is the same
succession.  All money amounts are integer cents as in the source;
`Math.round` on the exact value p/q (q > 0) is embedded as
round-half-up, computed with integer division.  JavaScript `Number`
arithmetic is embedded as exact rational arithmetic.
-/

/-- Gregorian leap-year rule, as implemented by JavaScript `Date.UTC`
normalisation which the source relies on for month lengths. -/
def isLeap (y : ℤ) : Bool := (y % 4 == 0 && y % 100 != 0) || (y % 400 == 0)

/-- Number of days of month m (1..12) of year y; this is the value the
source obtains as `Date.UTC(y, m, 0) - Date.UTC(y, m-1, 1)` in days, plus 1. -/
def monthLength (y m : ℤ) : ℤ :=
  if m = 2 then (if isLeap y then 29 else 28)
  else if m = 4 ∨ m = 6 ∨ m = 9 ∨ m = 11 then 30
  else 31

/-- A calendar date at day granularity (what `parseDateOnly` produces). -/
structure CivilDate where
  year : ℤ
  month : ℤ
  day : ℤ
deriving DecidableEq, Repr

/-- Well-formedness of a calendar date. -/
def CivilDate.Valid (d : CivilDate) : Prop :=
  1 ≤ d.month ∧ d.month ≤ 12 ∧ 1 ≤ d.day ∧ d.day ≤ monthLength d.year d.month

instance (d : CivilDate) : Decidable d.Valid := by
  unfold CivilDate.Valid; infer_instance

/-- Month index of a date: months counted from January 2024 (epoch). -/
def monthIdx (d : CivilDate) : ℤ := 12 * (d.year - 2024) + (d.month - 1)

/-- Year of a month index. -/
def idxYear (i : ℤ) : ℤ := 2024 + i / 12

/-- Month (1..12) of a month index. -/
def idxMonth (i : ℤ) : ℤ := i % 12 + 1

/-- Length in days of the month with index i. -/
def monthLen (i : ℤ) : ℤ := monthLength (idxYear i) (idxMonth i)

/-- Day number of the first day of month index n (months at or after the epoch). -/
def msdNat : ℕ → ℤ
  | 0 => 0
  | n + 1 => msdNat n + monthLen n

/-- Day number of the first day of month index -(k+1) (months before the epoch). -/
def msdNeg : ℕ → ℤ
  | 0 => -monthLen (-1)
  | k + 1 => msdNeg k - monthLen (Int.negSucc (k + 1))

/-- Day number of the first day of a month index (days counted from 2024-01-01). -/
def monthStartDay : ℤ → ℤ
  | Int.ofNat n => msdNat n
  | Int.negSucc k => msdNeg k

/-- Day number of a calendar date: the UTC timestamp of the source divided
by `DAY_IN_MS`, shifted to the 2024-01-01 epoch. -/
def dayNumber (d : CivilDate) : ℤ := monthStartDay (monthIdx d) + (d.day - 1)

theorem monthLength_bounds (y m : ℤ) : 28 ≤ monthLength y m ∧ monthLength y m ≤ 31 := by
  unfold monthLength
  split
  · split <;> omega
  · split <;> omega

theorem monthLen_bounds (i : ℤ) : 28 ≤ monthLen i ∧ monthLen i ≤ 31 :=
  monthLength_bounds _ _

theorem monthStartDay_succ (i : ℤ) :
    monthStartDay (i + 1) = monthStartDay i + monthLen i := by
  cases i with
  | ofNat n =>
    have h : (Int.ofNat n) + 1 = Int.ofNat (n + 1) := rfl
    rw [h]
    show msdNat (n + 1) = msdNat n + monthLen (Int.ofNat n)
    rfl
  | negSucc k =>
    cases k with
    | zero =>
      have h : (Int.negSucc 0) + 1 = 0 := rfl
      rw [h]
      show (0 : ℤ) = msdNeg 0 + monthLen (-1)
      show (0 : ℤ) = -monthLen (-1) + monthLen (-1)
      ring
    | succ k =>
      have h : (Int.negSucc (k + 1)) + 1 = Int.negSucc k := by
        rw [Int.negSucc_eq, Int.negSucc_eq]
        push_cast
        ring
      rw [h]
      show msdNeg k = msdNeg (k + 1) + monthLen (Int.negSucc (k + 1))
      show msdNeg k = (msdNeg k - monthLen (Int.negSucc (k + 1))) + monthLen (Int.negSucc (k + 1))
      ring

theorem monthStartDay_add (i : ℤ) (n : ℕ) :
    monthStartDay i + 28 * n ≤ monthStartDay (i + n) := by
  induction n with
  | zero => simp
  | succ n ih =>
    have h1 : (i + (n + 1 : ℕ)) = (i + n) + 1 := by push_cast; ring
    rw [h1, monthStartDay_succ]
    have := (monthLen_bounds (i + n)).1
    push_cast
    push_cast at ih
    omega

theorem monthStartDay_mono {i j : ℤ} (h : i ≤ j) :
    monthStartDay i ≤ monthStartDay j := by
  have h1 := monthStartDay_add i (j - i).toNat
  have h2 : i + ((j - i).toNat : ℤ) = j := by omega
  rw [h2] at h1
  omega

theorem monthStartDay_lt {i j : ℤ} (h : i < j) :
    monthStartDay i + 28 ≤ monthStartDay j := by
  have h1 := monthStartDay_add i (j - i).toNat
  have h2 : i + ((j - i).toNat : ℤ) = j := by omega
  rw [h2] at h1
  have h3 : (1 : ℤ) ≤ ((j - i).toNat : ℤ) := by omega
  omega

theorem idx_roundtrip (d : CivilDate) (h : d.Valid) :
    idxYear (monthIdx d) = d.year ∧ idxMonth (monthIdx d) = d.month := by
  obtain ⟨h1, h2, _, _⟩ := h
  unfold idxYear idxMonth monthIdx
  omega

theorem monthLen_of_date (d : CivilDate) (h : d.Valid) :
    monthLen (monthIdx d) = monthLength d.year d.month := by
  obtain ⟨hy, hm⟩ := idx_roundtrip d h
  unfold monthLen
  rw [hy, hm]

theorem dayNumber_mem (d : CivilDate) (h : d.Valid) :
    monthStartDay (monthIdx d) ≤ dayNumber d ∧
      dayNumber d ≤ monthStartDay (monthIdx d) + monthLen (monthIdx d) - 1 := by
  have hlen := monthLen_of_date d h
  obtain ⟨_, _, h3, h4⟩ := h
  unfold dayNumber
  omega

/-- Round-half-up of the exact fraction a/b (b > 0), as integer arithmetic.
This is JavaScript `Math.round(a / b)` on the exact value. -/
def roundHalfUpFrac (a b : ℤ) : ℤ := (2 * a + b) / (2 * b)

theorem roundHalfUpFrac_eq_floor (a b : ℤ) (hb : 0 < b) :
    roundHalfUpFrac a b = ⌊(a : ℚ) / (b : ℚ) + 1 / 2⌋ := by
  have hbq : ((b : ℚ)) ≠ 0 := by
    exact_mod_cast hb.ne'
  have h2b : (((2 * b).toNat : ℕ) : ℤ) = 2 * b := by omega
  have hval : (a : ℚ) / (b : ℚ) + 1 / 2
      = ((2 * a + b : ℤ) : ℚ) / (((2 * b).toNat : ℕ) : ℚ) := by
    have : (((2 * b).toNat : ℕ) : ℚ) = ((2 * b : ℤ) : ℚ) := by
      exact_mod_cast congrArg (fun z : ℤ => (z : ℚ)) h2b
    rw [this]
    push_cast
    field_simp
    ring
  rw [hval, Rat.floor_intCast_div_natCast]
  unfold roundHalfUpFrac
  rw [h2b]

theorem roundHalfUpFrac_close (a b : ℤ) (hb : 0 < b) :
    |((roundHalfUpFrac a b : ℚ)) - (a : ℚ) / (b : ℚ)| ≤ 1 / 2 := by
  rw [roundHalfUpFrac_eq_floor a b hb]
  have h1 := Int.floor_le ((a : ℚ) / (b : ℚ) + 1 / 2)
  have h2 := Int.lt_floor_add_one ((a : ℚ) / (b : ℚ) + 1 / 2)
  rw [abs_le]
  constructor <;> linarith

/-- One lease record as consumed by the allocator and the deposit ledger
(the fields selected from the `Application` collection by the route).
`rentalAmount` and `depositAmount` are decimal dollar amounts; a missing
amount is embedded as 0 (JavaScript `Number(x || 0)`); a missing or
unparseable date is embedded as `none` (what `parseDateOnly` returns). -/
structure Application where
  leaseStartDate : Option CivilDate
  leaseEndDate : Option CivilDate
  requestedStartDate : Option CivilDate
  requestedEndDate : Option CivilDate
  rentalAmount : ℚ
  depositAmount : ℚ
  appId : ℕ
deriving DecidableEq

/-- Source: `parseDateOnly(application.leaseStartDate || application.requestedStartDate)`. -/
def Application.startDate (app : Application) : Option CivilDate :=
  app.leaseStartDate.orElse (fun _ => app.requestedStartDate)

/-- Source: `parseDateOnly(application.leaseEndDate || application.requestedEndDate)`. -/
def Application.endDate (app : Application) : Option CivilDate :=
  app.leaseEndDate.orElse (fun _ => app.requestedEndDate)

/-- One month bucket produced by `calculateAccrualAllocations`:
the allocations and nightsByMonth objects share their keys, so one entry
carries the month key together with both values. -/
structure AllocEntry where
  month : ℤ
  cents : ℤ
  nights : ℤ
deriving DecidableEq, Repr

/-- Body of the while loop of `calculateAccrualAllocations` for the month
with index i.  `monthStartDay (i+1) - 1` is `Date.UTC(y, m + 1, 0)`, the last
day of the month.  The cents amount is
`Math.round(monthlyRent * (activeDays / daysInMonth) * 100)` evaluated
exactly: with rent = num/den this value is
(num * activeDays * 100) / (den * daysInMonth), rounded half-up. -/
def allocEntry (rent : ℚ) (lsN leN i : ℤ) : Option AllocEntry :=
  let ms := monthStartDay i
  let me := monthStartDay (i + 1) - 1
  let aS := max ms lsN
  let aE := min me leN
  if aE < aS then none
  else
    let activeDays := aE - aS + 1
    let daysInMonth := me - ms + 1
    if activeDays ≤ 0 ∨ daysInMonth ≤ 0 then none
    else some ⟨i, roundHalfUpFrac (rent.num * activeDays * 100) ((rent.den : ℤ) * daysInMonth),
      activeDays⟩

/-- Embedding of `calculateAccrualAllocations(application)`.  The JS while loop runs the
month index from the month containing leaseStart to the month containing
leaseEnd inclusive; degenerate leases return empty allocations. -/
def calculateAccrualAllocations (app : Application) : List AllocEntry :=
  match app.startDate, app.endDate with
  | some ls, some le =>
    if dayNumber le < dayNumber ls then []
    else if app.rentalAmount = 0 then []
    else
      (List.range (monthIdx le - monthIdx ls + 1).toNat).filterMap
        (fun (k : ℕ) =>
          allocEntry app.rentalAmount (dayNumber ls) (dayNumber le) (monthIdx ls + (k : ℤ)))
  | _, _ => []

/-- Value of the `allocations` object at a month key (0 when absent):
entries are accumulated with `(allocations[monthKey] || 0) + cents`. -/
def allocCents (l : List AllocEntry) (i : ℤ) : ℤ :=
  (l.map (fun e => if e.month = i then e.cents else 0)).sum

/-- Value of the `nightsByMonth` object at a month key (0 when absent). -/
def allocNights (l : List AllocEntry) (i : ℤ) : ℤ :=
  (l.map (fun e => if e.month = i then e.nights else 0)).sum

/-- Sum of all cents allocations of one lease. -/
def totalCents (l : List AllocEntry) : ℤ := (l.map AllocEntry.cents).sum

/-- Sum of all night allocations of one lease. -/
def totalNights (l : List AllocEntry) : ℤ := (l.map AllocEntry.nights).sum

/-- Spec-side formula: start of the active range of month i. -/
def activeStart (lsN i : ℤ) : ℤ := max (monthStartDay i) lsN

/-- Spec-side formula: end of the active range of month i. -/
def activeEnd (leN i : ℤ) : ℤ := min (monthStartDay (i + 1) - 1) leN

/-- Spec-side formula: inclusive day count of the active range of month i. -/
def activeDayCount (lsN leN i : ℤ) : ℤ := activeEnd leN i - activeStart lsN i + 1

/-- Spec-side formula: the cents allocated to month i, i.e.
round-half-up(monthlyRentCents * activeDays / daysInMonth) with
monthlyRentCents = 100 * rent. -/
def monthCentsFormula (rent : ℚ) (lsN leN i : ℤ) : ℤ :=
  roundHalfUpFrac (rent.num * activeDayCount lsN leN i * 100) ((rent.den : ℤ) * monthLen i)

theorem monthLen_pos (i : ℤ) : 0 < monthLen i := by
  have := monthLen_bounds i
  omega

theorem activeStart_first {lsN i0 : ℤ} (h1 : monthStartDay i0 ≤ lsN) :
    activeStart lsN i0 = lsN := by
  unfold activeStart
  omega

theorem activeStart_later {lsN i0 i : ℤ} (h2 : lsN ≤ monthStartDay (i0 + 1) - 1)
    (hi : i0 < i) : activeStart lsN i = monthStartDay i := by
  have := monthStartDay_mono (show i0 + 1 ≤ i by omega)
  unfold activeStart
  omega

theorem activeEnd_last {leN i1 : ℤ} (h4 : leN ≤ monthStartDay (i1 + 1) - 1) :
    activeEnd leN i1 = leN := by
  unfold activeEnd
  omega

theorem activeEnd_earlier {leN i1 i : ℤ} (h3 : monthStartDay i1 ≤ leN)
    (hi : i < i1) : activeEnd leN i = monthStartDay (i + 1) - 1 := by
  have := monthStartDay_mono (show i + 1 ≤ i1 by omega)
  unfold activeEnd
  omega

theorem active_nonempty {lsN leN i0 i1 i : ℤ}
    (h2 : lsN ≤ monthStartDay (i0 + 1) - 1) (h3 : monthStartDay i1 ≤ leN)
    (h5 : lsN ≤ leN) (hi0 : i0 ≤ i) (hi1 : i ≤ i1) :
    activeStart lsN i ≤ activeEnd leN i := by
  have ha : monthStartDay i ≤ monthStartDay i1 := monthStartDay_mono hi1
  have hb : monthStartDay (i0 + 1) ≤ monthStartDay (i + 1) :=
    monthStartDay_mono (by omega)
  have hc := monthStartDay_succ i
  have hd := monthLen_bounds i
  unfold activeStart activeEnd
  omega

theorem allocEntry_of_nonempty (rent : ℚ) {lsN leN i : ℤ}
    (hne : activeStart lsN i ≤ activeEnd leN i) :
    allocEntry rent lsN leN i
      = some ⟨i, monthCentsFormula rent lsN leN i, activeDayCount lsN leN i⟩ := by
  have hS := monthStartDay_succ i
  have hL := monthLen_bounds i
  unfold activeStart activeEnd at hne
  have h1 : ¬ (min (monthStartDay (i + 1) - 1) leN < max (monthStartDay i) lsN) := by
    omega
  have h2 : ¬ (min (monthStartDay (i + 1) - 1) leN - max (monthStartDay i) lsN + 1 ≤ 0
      ∨ monthStartDay (i + 1) - 1 - monthStartDay i + 1 ≤ 0) := by
    omega
  have hlen : monthStartDay (i + 1) - 1 - monthStartDay i + 1 = monthLen i := by
    omega
  simp only [allocEntry, h1, if_false, h2, if_neg, ite_false]
  unfold monthCentsFormula activeDayCount activeStart activeEnd
  rw [hlen]

theorem filterMap_eq_map_of_forall {α β : Type} (l : List α) (f : α → Option β) (g : α → β)
    (h : ∀ a ∈ l, f a = some (g a)) : l.filterMap f = l.map g := by
  induction l with
  | nil => rfl
  | cons x xs ih =>
    rw [List.map_cons, List.filterMap_cons, h x (List.mem_cons_self x xs),
      ih (fun a ha => h a (List.mem_cons_of_mem x ha))]

/-- Under the guards of `calculateAccrualAllocations`, the while loop produces
exactly one bucket for every month from the month of leaseStart to the month
of leaseEnd. -/
theorem calculateAccrualAllocations_eq (app : Application) (ls le : CivilDate)
    (hs : app.startDate = some ls) (he : app.endDate = some le)
    (hvs : ls.Valid) (hve : le.Valid)
    (hord : dayNumber ls ≤ dayNumber le) (hrent : app.rentalAmount ≠ 0) :
    calculateAccrualAllocations app
      = (List.range (monthIdx le - monthIdx ls + 1).toNat).map
          (fun (k : ℕ) => ⟨monthIdx ls + (k : ℤ),
            monthCentsFormula app.rentalAmount (dayNumber ls) (dayNumber le) (monthIdx ls + (k : ℤ)),
            activeDayCount (dayNumber ls) (dayNumber le) (monthIdx ls + (k : ℤ))⟩) := by
  have hms := dayNumber_mem ls hvs
  have hme := dayNumber_mem le hve
  have hS0 := monthStartDay_succ (monthIdx ls)
  have hS1 := monthStartDay_succ (monthIdx le)
  have hi01 : monthIdx ls ≤ monthIdx le := by
    by_contra hcon
    push_neg at hcon
    have := monthStartDay_mono (show monthIdx le + 1 ≤ monthIdx ls by omega)
    omega
  unfold calculateAccrualAllocations
  rw [hs, he]
  show (if dayNumber le < dayNumber ls then []
    else if app.rentalAmount = 0 then []
    else (List.range (monthIdx le - monthIdx ls + 1).toNat).filterMap
      (fun (k : ℕ) =>
        allocEntry app.rentalAmount (dayNumber ls) (dayNumber le) (monthIdx ls + (k : ℤ)))) = _
  rw [if_neg (by omega), if_neg hrent]
  apply filterMap_eq_map_of_forall
  intro k hk
  have hkn : (k : ℤ) ≤ monthIdx le - monthIdx ls := by
    have := List.mem_range.mp hk
    omega
  apply allocEntry_of_nonempty
  exact @active_nonempty (dayNumber ls) (dayNumber le) (monthIdx ls) (monthIdx le)
    (monthIdx ls + (k : ℤ)) (by omega) (by omega) hord (by omega) (by omega)

theorem sum_map_range_ite (c : ℕ → ℤ) (i0 : ℤ) (n : ℕ) (i : ℤ) :
    ((List.range n).map (fun (k : ℕ) => if i0 + (k : ℤ) = i then c k else 0)).sum
      = if i0 ≤ i ∧ i < i0 + (n : ℤ) then c (i - i0).toNat else 0 := by
  induction n with
  | zero =>
    simp only [List.range_zero, List.map_nil, List.sum_nil, Nat.cast_zero, add_zero]
    rw [if_neg (by omega : ¬ (i0 ≤ i ∧ i < i0))]
  | succ n ih =>
    rw [List.range_succ, List.map_append, List.sum_append, ih]
    simp only [List.map_cons, List.map_nil, List.sum_cons, List.sum_nil, add_zero]
    by_cases h2 : i0 + (n : ℤ) = i
    · have hc1 : ¬ (i0 ≤ i ∧ i < i0 + (n : ℤ)) := by omega
      have hc2 : i0 ≤ i ∧ i < i0 + ((n + 1 : ℕ) : ℤ) := by
        push_cast
        omega
      rw [if_neg hc1, if_pos h2, if_pos hc2]
      have h3 : (i - i0).toNat = n := by omega
      rw [h3]
      ring
    · rw [if_neg h2]
      by_cases hc1 : i0 ≤ i ∧ i < i0 + (n : ℤ)
      · have hc2 : i0 ≤ i ∧ i < i0 + ((n + 1 : ℕ) : ℤ) := by
          push_cast at hc1 ⊢
          omega
        rw [if_pos hc1, if_pos hc2]
        ring
      · have hc2 : ¬ (i0 ≤ i ∧ i < i0 + ((n + 1 : ℕ) : ℤ)) := by
          push_cast at hc1 ⊢
          omega
        rw [if_neg hc1, if_neg hc2]
        ring

theorem monthIdx_le_of_dayNumber_le {ls le : CivilDate} (hvs : ls.Valid) (hve : le.Valid)
    (hord : dayNumber ls ≤ dayNumber le) : monthIdx ls ≤ monthIdx le := by
  have hms := dayNumber_mem ls hvs
  have hme := dayNumber_mem le hve
  by_contra hcon
  push_neg at hcon
  have := monthStartDay_mono (show monthIdx le + 1 ≤ monthIdx ls by omega)
  have := monthStartDay_succ (monthIdx le)
  omega

/-- The month bucket amount is round-half-up of the exact rational value
monthlyRentCents * activeDays / daysInMonth. -/
theorem monthCentsFormula_eq_round (rent : ℚ) (lsN leN i : ℤ) :
    monthCentsFormula rent lsN leN i
      = ⌊rent * 100 * (activeDayCount lsN leN i : ℚ) / (monthLen i : ℚ) + 1 / 2⌋ := by
  have hden : (0 : ℤ) < (rent.den : ℤ) := by exact_mod_cast rent.den_pos
  have hb : 0 < (rent.den : ℤ) * monthLen i := mul_pos hden (monthLen_pos i)
  unfold monthCentsFormula
  rw [roundHalfUpFrac_eq_floor _ _ hb]
  congr 1
  have hL : ((monthLen i : ℤ) : ℚ) ≠ 0 := by
    have := monthLen_pos i
    exact_mod_cast this.ne'
  have hD : ((rent.den : ℕ) : ℚ) ≠ 0 := by
    exact_mod_cast rent.den_pos.ne'
  have hr : (rent.num : ℚ) = rent * (rent.den : ℚ) :=
    (div_eq_iff hD).mp (Rat.num_div_den rent)
  push_cast
  field_simp
  rw [hr]
  ring

theorem monthCentsFormula_close (rent : ℚ) (lsN leN i : ℤ) :
    |((monthCentsFormula rent lsN leN i : ℤ) : ℚ)
        - rent * 100 * (activeDayCount lsN leN i : ℚ) / (monthLen i : ℚ)| ≤ 1 / 2 := by
  have hden : (0 : ℤ) < (rent.den : ℤ) := by exact_mod_cast rent.den_pos
  have hb : 0 < (rent.den : ℤ) * monthLen i := mul_pos hden (monthLen_pos i)
  have h := roundHalfUpFrac_close (rent.num * activeDayCount lsN leN i * 100)
    ((rent.den : ℤ) * monthLen i) hb
  have hL : ((monthLen i : ℤ) : ℚ) ≠ 0 := by
    have := monthLen_pos i
    exact_mod_cast this.ne'
  have hD : ((rent.den : ℕ) : ℚ) ≠ 0 := by
    exact_mod_cast rent.den_pos.ne'
  have hr : (rent.num : ℚ) = rent * (rent.den : ℚ) :=
    (div_eq_iff hD).mp (Rat.num_div_den rent)
  have heq : ((rent.num * activeDayCount lsN leN i * 100 : ℤ) : ℚ)
      / (((rent.den : ℤ) * monthLen i : ℤ) : ℚ)
      = rent * 100 * (activeDayCount lsN leN i : ℚ) / (monthLen i : ℚ) := by
    push_cast
    field_simp
    rw [hr]
    ring
  rw [heq] at h
  unfold monthCentsFormula
  exact h

/-- Claim C1: for every lease with both dates present, end at or after start
and nonzero monthly rent, the allocator fills exactly the months from the
month containing leaseStart through the month containing leaseEnd; month i
earns round-half-up(monthlyRentCents * activeDays / daysInMonth) cents where
activeStart = max(monthStart i, leaseStart), activeEnd = min(monthEnd i, leaseEnd),
activeDays = activeEnd - activeStart + 1; all other months get nothing
(months with activeEnd < activeStart never occur inside the range and are
skipped outside it). -/
theorem claim1_alloc_per_month (app : Application) (ls le : CivilDate)
    (hs : app.startDate = some ls) (he : app.endDate = some le)
    (hvs : ls.Valid) (hve : le.Valid)
    (hord : dayNumber ls ≤ dayNumber le) (hrent : app.rentalAmount ≠ 0) (i : ℤ) :
    (allocCents (calculateAccrualAllocations app) i
        = if monthIdx ls ≤ i ∧ i ≤ monthIdx le
            then monthCentsFormula app.rentalAmount (dayNumber ls) (dayNumber le) i else 0)
      ∧ (allocNights (calculateAccrualAllocations app) i
        = if monthIdx ls ≤ i ∧ i ≤ monthIdx le
            then activeDayCount (dayNumber ls) (dayNumber le) i else 0) := by
  have hi01 := monthIdx_le_of_dayNumber_le hvs hve hord
  rw [calculateAccrualAllocations_eq app ls le hs he hvs hve hord hrent]
  have hn : (((monthIdx le - monthIdx ls + 1).toNat : ℕ) : ℤ)
      = monthIdx le - monthIdx ls + 1 := by omega
  constructor
  · unfold allocCents
    rw [List.map_map]
    have hcomp : ((fun e : AllocEntry => if e.month = i then e.cents else 0) ∘
        (fun (k : ℕ) => (⟨monthIdx ls + (k : ℤ),
          monthCentsFormula app.rentalAmount (dayNumber ls) (dayNumber le)
            (monthIdx ls + (k : ℤ)),
          activeDayCount (dayNumber ls) (dayNumber le) (monthIdx ls + (k : ℤ))⟩ : AllocEntry)))
        = fun (k : ℕ) => if monthIdx ls + (k : ℤ) = i
            then monthCentsFormula app.rentalAmount (dayNumber ls) (dayNumber le)
              (monthIdx ls + (k : ℤ)) else 0 := rfl
    rw [hcomp]
    have hstep : (fun (k : ℕ) => if monthIdx ls + (k : ℤ) = i
        then monthCentsFormula app.rentalAmount (dayNumber ls) (dayNumber le)
          (monthIdx ls + (k : ℤ)) else 0)
        = fun (k : ℕ) => if monthIdx ls + (k : ℤ) = i
            then (fun (j : ℕ) => monthCentsFormula app.rentalAmount (dayNumber ls)
              (dayNumber le) (monthIdx ls + (j : ℤ))) k else 0 := rfl
    rw [hstep, sum_map_range_ite]
    rw [hn]
    by_cases hcond : monthIdx ls ≤ i ∧ i ≤ monthIdx le
    · rw [if_pos (by omega), if_pos hcond]
      have harg : monthIdx ls + (((i - monthIdx ls).toNat : ℕ) : ℤ) = i := by omega
      rw [harg]
    · rw [if_neg (by omega), if_neg hcond]
  · unfold allocNights
    rw [List.map_map]
    have hcomp : ((fun e : AllocEntry => if e.month = i then e.nights else 0) ∘
        (fun (k : ℕ) => (⟨monthIdx ls + (k : ℤ),
          monthCentsFormula app.rentalAmount (dayNumber ls) (dayNumber le)
            (monthIdx ls + (k : ℤ)),
          activeDayCount (dayNumber ls) (dayNumber le) (monthIdx ls + (k : ℤ))⟩ : AllocEntry)))
        = fun (k : ℕ) => if monthIdx ls + (k : ℤ) = i
            then (fun (j : ℕ) => activeDayCount (dayNumber ls) (dayNumber le)
              (monthIdx ls + (j : ℤ))) k else 0 := rfl
    rw [hcomp, sum_map_range_ite]
    rw [hn]
    by_cases hcond : monthIdx ls ≤ i ∧ i ≤ monthIdx le
    · rw [if_pos (by omega), if_pos hcond]
      have harg : monthIdx ls + (((i - monthIdx ls).toNat : ℕ) : ℤ) = i := by omega
      rw [harg]
    · rw [if_neg (by omega), if_neg hcond]

/-- The scenario lease of the spec: Jan 15 2024 to Feb 10 2024, rent $1000. -/
def app1 : Application :=
  { leaseStartDate := some ⟨2024, 1, 15⟩
    leaseEndDate := some ⟨2024, 2, 10⟩
    requestedStartDate := none
    requestedEndDate := none
    rentalAmount := 1000
    depositAmount := 0
    appId := 0 }

/-- Witness for claim C1: the scenario lease at the January 2024 bucket;
the bucket holds round-half-up(100000 * 17 / 31) = 54839 cents. -/
theorem claim1_alloc_per_month_witness :
    CivilDate.Valid ⟨2024, 1, 15⟩ ∧ CivilDate.Valid ⟨2024, 2, 10⟩
      ∧ dayNumber ⟨2024, 1, 15⟩ ≤ dayNumber ⟨2024, 2, 10⟩
      ∧ app1.rentalAmount ≠ 0
      ∧ allocCents (calculateAccrualAllocations app1) 0
          = (if monthIdx ⟨2024, 1, 15⟩ ≤ 0 ∧ (0 : ℤ) ≤ monthIdx ⟨2024, 2, 10⟩
              then monthCentsFormula app1.rentalAmount (dayNumber ⟨2024, 1, 15⟩)
                (dayNumber ⟨2024, 2, 10⟩) 0 else 0)
      ∧ allocCents (calculateAccrualAllocations app1) 0 = 54839 :=
  ⟨by decide, by decide, by decide, by decide,
    (claim1_alloc_per_month app1 ⟨2024, 1, 15⟩ ⟨2024, 2, 10⟩ rfl rfl (by decide) (by decide)
      (by decide) (by decide) 0).1,
    by decide⟩

theorem sum_nights_telescope {lsN leN i0 i1 : ℤ}
    (hA : monthStartDay i0 ≤ lsN) (hB : lsN ≤ monthStartDay (i0 + 1) - 1)
    (hC : monthStartDay i1 ≤ leN) :
    ∀ m : ℕ, 1 ≤ m → (m : ℤ) ≤ i1 - i0 + 1 →
      ((List.range m).map (fun (k : ℕ) => activeDayCount lsN leN (i0 + (k : ℤ)))).sum
        = activeEnd leN (i0 + (m : ℤ) - 1) - lsN + 1 := by
  intro m
  induction m with
  | zero => omega
  | succ m ih =>
    intro _ hle
    by_cases hm : m = 0
    · subst hm
      simp only [List.range_succ, List.range_zero, List.nil_append, List.map_cons,
        List.map_nil, List.sum_cons, List.sum_nil, add_zero, Nat.cast_zero, Nat.cast_one]
      norm_num
      unfold activeDayCount
      rw [activeStart_first hA]
    · have hm1 : 1 ≤ m := by omega
      have hle2 : (m : ℤ) ≤ i1 - i0 + 1 := by
        push_cast at hle
        omega
      rw [List.range_succ, List.map_append, List.sum_append, ih hm1 hle2]
      simp only [List.map_cons, List.map_nil, List.sum_cons, List.sum_nil, add_zero]
      have hlt0 : i0 < i0 + (m : ℤ) := by omega
      have hlast : i0 + (m : ℤ) - 1 < i1 := by
        push_cast at hle
        omega
      unfold activeDayCount
      rw [activeStart_later hB hlt0, activeEnd_earlier hC hlast]
      have hshift : i0 + (m : ℤ) - 1 + 1 = i0 + (m : ℤ) := by ring
      rw [hshift]
      have hcast : i0 + ((m + 1 : ℕ) : ℤ) - 1 = i0 + (m : ℤ) := by
        push_cast
        ring
      rw [hcast]
      ring

/-- Claim C2: the per-month night counts of one lease sum to the inclusive
day span of the lease, (leaseEnd - leaseStart in days) + 1. -/
theorem claim2_nights_sum (app : Application) (ls le : CivilDate)
    (hs : app.startDate = some ls) (he : app.endDate = some le)
    (hvs : ls.Valid) (hve : le.Valid)
    (hord : dayNumber ls ≤ dayNumber le) (hrent : app.rentalAmount ≠ 0) :
    totalNights (calculateAccrualAllocations app)
      = (dayNumber le - dayNumber ls) + 1 := by
  have hi01 := monthIdx_le_of_dayNumber_le hvs hve hord
  have hms := dayNumber_mem ls hvs
  have hme := dayNumber_mem le hve
  have hS0 := monthStartDay_succ (monthIdx ls)
  have hS1 := monthStartDay_succ (monthIdx le)
  rw [calculateAccrualAllocations_eq app ls le hs he hvs hve hord hrent]
  unfold totalNights
  rw [List.map_map]
  have hcomp : (AllocEntry.nights ∘
      (fun (k : ℕ) => (⟨monthIdx ls + (k : ℤ),
        monthCentsFormula app.rentalAmount (dayNumber ls) (dayNumber le) (monthIdx ls + (k : ℤ)),
        activeDayCount (dayNumber ls) (dayNumber le) (monthIdx ls + (k : ℤ))⟩ : AllocEntry)))
      = fun (k : ℕ) => activeDayCount (dayNumber ls) (dayNumber le) (monthIdx ls + (k : ℤ)) :=
    rfl
  rw [hcomp]
  have hn : (((monthIdx le - monthIdx ls + 1).toNat : ℕ) : ℤ)
      = monthIdx le - monthIdx ls + 1 := by omega
  rw [@sum_nights_telescope (dayNumber ls) (dayNumber le) (monthIdx ls) (monthIdx le)
    (by omega) (by omega) (by omega)
    (monthIdx le - monthIdx ls + 1).toNat (by omega) (by omega)]
  have harg : monthIdx ls + (((monthIdx le - monthIdx ls + 1).toNat : ℕ) : ℤ) - 1
      = monthIdx le := by omega
  rw [harg, activeEnd_last (by omega)]

/-- Witness for claim C2: the scenario lease spans 27 nights in total. -/
theorem claim2_nights_sum_witness :
    CivilDate.Valid ⟨2024, 1, 15⟩ ∧ CivilDate.Valid ⟨2024, 2, 10⟩
      ∧ dayNumber ⟨2024, 1, 15⟩ ≤ dayNumber ⟨2024, 2, 10⟩
      ∧ app1.rentalAmount ≠ 0
      ∧ totalNights (calculateAccrualAllocations app1)
          = (dayNumber ⟨2024, 2, 10⟩ - dayNumber ⟨2024, 1, 15⟩) + 1
      ∧ totalNights (calculateAccrualAllocations app1) = 27 :=
  ⟨by decide, by decide, by decide, by decide,
    claim2_nights_sum app1 ⟨2024, 1, 15⟩ ⟨2024, 2, 10⟩ rfl rfl (by decide) (by decide)
      (by decide) (by decide),
    by decide⟩

theorem intListSum_cast (l : List ℤ) : ((l.sum : ℤ) : ℚ) = (l.map (fun z : ℤ => (z : ℚ))).sum := by
  induction l with
  | nil => simp
  | cons x xs ih =>
    simp only [List.sum_cons, List.map_cons]
    rw [Int.cast_add, ih]

theorem list_sum_close {α : Type} (l : List α) (r e : α → ℚ)
    (h : ∀ a ∈ l, |r a - e a| ≤ 1) :
    |(l.map r).sum - (l.map e).sum| ≤ (l.length : ℚ) := by
  induction l with
  | nil => simp
  | cons x xs ih =>
    simp only [List.map_cons, List.sum_cons, List.length_cons]
    have h1 := h x (List.mem_cons_self x xs)
    have h2 := ih (fun a ha => h a (List.mem_cons_of_mem x ha))
    have h3 : r x + (xs.map r).sum - (e x + (xs.map e).sum)
        = (r x - e x) + ((xs.map r).sum - (xs.map e).sum) := by ring
    rw [h3]
    have h4 := abs_add (r x - e x) ((xs.map r).sum - (xs.map e).sum)
    push_cast
    linarith

/-- The exact unrounded prorated total of a lease:
sum over the spanned months of monthlyRentCents * activeDays / daysInMonth. -/
def exactMonthTotal (rent : ℚ) (lsN leN i0 : ℤ) (n : ℕ) : ℚ :=
  ((List.range n).map (fun (k : ℕ) =>
    rent * 100 * (activeDayCount lsN leN (i0 + (k : ℤ)) : ℚ)
      / (monthLen (i0 + (k : ℤ)) : ℚ))).sum

/-- Counterexample for claim C3 as stated: the scenario lease (Jan 15 2024 to
Feb 10 2024, rent $1000) touches 2 months and allocates 54839 + 34483 = 89322
cents in total, which differs from monthlyRentCents * monthsSpanned = 200000
by far more than 2 cents: the claimed bound only holds against the exact
prorated total, not against rent * monthsSpanned, because boundary months are
prorated, not charged in full. -/
theorem claim3_counterexample :
    totalCents (calculateAccrualAllocations app1) = 89322
      ∧ ¬ (|(89322 : ℤ) - 1000 * 100 * 2| ≤ 2) := by
  constructor
  · decide
  · decide

/-- Claim C3 (amended): the allocated cents of one lease sum to within one
cent per month touched of the exact unrounded prorated total
sum over months of monthlyRentCents * activeDays(month) / daysInMonth(month). -/
theorem claim3_cents_drift (app : Application) (ls le : CivilDate)
    (hs : app.startDate = some ls) (he : app.endDate = some le)
    (hvs : ls.Valid) (hve : le.Valid)
    (hord : dayNumber ls ≤ dayNumber le) (hrent : app.rentalAmount ≠ 0) :
    |((totalCents (calculateAccrualAllocations app) : ℤ) : ℚ)
        - exactMonthTotal app.rentalAmount (dayNumber ls) (dayNumber le) (monthIdx ls)
            (monthIdx le - monthIdx ls + 1).toNat|
      ≤ ((calculateAccrualAllocations app).length : ℚ) := by
  rw [calculateAccrualAllocations_eq app ls le hs he hvs hve hord hrent]
  unfold totalCents exactMonthTotal
  rw [List.map_map, List.length_map, List.length_range, intListSum_cast, List.map_map]
  have hcomp : ((fun z : ℤ => (z : ℚ)) ∘ (AllocEntry.cents ∘
      (fun (k : ℕ) => (⟨monthIdx ls + (k : ℤ),
        monthCentsFormula app.rentalAmount (dayNumber ls) (dayNumber le) (monthIdx ls + (k : ℤ)),
        activeDayCount (dayNumber ls) (dayNumber le) (monthIdx ls + (k : ℤ))⟩ : AllocEntry))))
      = fun (k : ℕ) => ((monthCentsFormula app.rentalAmount (dayNumber ls) (dayNumber le)
          (monthIdx ls + (k : ℤ)) : ℤ) : ℚ) := rfl
  rw [hcomp]
  have h := list_sum_close (List.range (monthIdx le - monthIdx ls + 1).toNat)
    (fun (k : ℕ) => ((monthCentsFormula app.rentalAmount (dayNumber ls) (dayNumber le)
      (monthIdx ls + (k : ℤ)) : ℤ) : ℚ))
    (fun (k : ℕ) => app.rentalAmount * 100
      * (activeDayCount (dayNumber ls) (dayNumber le) (monthIdx ls + (k : ℤ)) : ℚ)
      / (monthLen (monthIdx ls + (k : ℤ)) : ℚ))
    (fun a _ => le_trans (monthCentsFormula_close app.rentalAmount (dayNumber ls)
      (dayNumber le) (monthIdx ls + (a : ℤ))) (by norm_num))
  rw [List.length_range] at h
  exact h

/-- Witness for claim C3 (amended): the scenario lease instantiation. -/
theorem claim3_cents_drift_witness :
    CivilDate.Valid ⟨2024, 1, 15⟩ ∧ CivilDate.Valid ⟨2024, 2, 10⟩
      ∧ dayNumber ⟨2024, 1, 15⟩ ≤ dayNumber ⟨2024, 2, 10⟩
      ∧ app1.rentalAmount ≠ 0
      ∧ |((totalCents (calculateAccrualAllocations app1) : ℤ) : ℚ)
          - exactMonthTotal app1.rentalAmount (dayNumber ⟨2024, 1, 15⟩)
              (dayNumber ⟨2024, 2, 10⟩) (monthIdx ⟨2024, 1, 15⟩)
              (monthIdx ⟨2024, 2, 10⟩ - monthIdx ⟨2024, 1, 15⟩ + 1).toNat|
        ≤ ((calculateAccrualAllocations app1).length : ℚ) :=
  ⟨by decide, by decide, by decide, by decide,
    claim3_cents_drift app1 ⟨2024, 1, 15⟩ ⟨2024, 2, 10⟩ rfl rfl (by decide) (by decide)
      (by decide) (by decide)⟩

/-- Claim C9: a lease with a missing or unparseable start or end date, an
inverted date range, or zero/missing monthly rent produces empty allocations
(and no error: the function is total). -/
theorem claim9_degenerate_empty (app : Application)
    (h : app.startDate = none ∨ app.endDate = none
      ∨ (∃ ls le, app.startDate = some ls ∧ app.endDate = some le
          ∧ dayNumber le < dayNumber ls)
      ∨ app.rentalAmount = 0) :
    calculateAccrualAllocations app = [] := by
  rcases h with h | h | ⟨ls, le, h1, h2, h3⟩ | h
  · cases hE : app.endDate <;> simp [calculateAccrualAllocations, h, hE]
  · cases hS : app.startDate <;> simp [calculateAccrualAllocations, hS, h]
  · unfold calculateAccrualAllocations
    rw [h1, h2]
    show (if dayNumber le < dayNumber ls then ([] : List AllocEntry)
      else if app.rentalAmount = 0 then []
      else (List.range (monthIdx le - monthIdx ls + 1).toNat).filterMap
        (fun (k : ℕ) =>
          allocEntry app.rentalAmount (dayNumber ls) (dayNumber le) (monthIdx ls + (k : ℤ)))) = []
    rw [if_pos h3]
  · cases hS : app.startDate <;> cases hE : app.endDate <;>
      simp [calculateAccrualAllocations, hS, hE, h]

/-- A lease record with no dates at all. -/
def app2 : Application :=
  { leaseStartDate := none
    leaseEndDate := none
    requestedStartDate := none
    requestedEndDate := none
    rentalAmount := 500
    depositAmount := 0
    appId := 1 }

/-- Witness for claim C9: a lease with missing dates contributes nothing. -/
theorem claim9_degenerate_empty_witness :
    app2.startDate = none ∧ calculateAccrualAllocations app2 = [] :=
  ⟨rfl, claim9_degenerate_empty app2 (Or.inl rfl)⟩

/-- Decimal digits of n, least significant first, as characters (fuel-based
so that it reduces in the kernel). -/
def natCharsAux : ℕ → ℕ → List Char
  | 0, _ => []
  | fuel + 1, n =>
    if n = 0 then [] else Nat.digitChar (n % 10) :: natCharsAux fuel (n / 10)

/-- JavaScript `String(n)` for a natural number. -/
def natChars (n : ℕ) : List Char :=
  if n = 0 then ['0'] else (natCharsAux n n).reverse

/-- JavaScript `String(n)` for an integer. -/
def intChars (n : ℤ) : List Char :=
  if n < 0 then '-' :: natChars n.natAbs else natChars n.toNat

theorem natCharsAux_eq_digits (fuel n : ℕ) (h : n ≤ fuel) :
    natCharsAux fuel n = (Nat.digits 10 n).map Nat.digitChar := by
  induction fuel generalizing n with
  | zero =>
    have hn : n = 0 := by omega
    subst hn
    rw [Nat.digits_zero]
    rfl
  | succ fuel ih =>
    by_cases hn : n = 0
    · subst hn
      rw [Nat.digits_zero]
      rfl
    · have h10 : n / 10 ≤ fuel := by omega
      show (if n = 0 then [] else Nat.digitChar (n % 10) :: natCharsAux fuel (n / 10))
        = (Nat.digits 10 n).map Nat.digitChar
      rw [if_neg hn, ih (n / 10) h10,
        Nat.digits_def' (show 1 < 10 by norm_num) (Nat.pos_of_ne_zero hn), List.map_cons]

theorem natChars_eq (n : ℕ) :
    natChars n = if n = 0 then ['0'] else ((Nat.digits 10 n).map Nat.digitChar).reverse := by
  unfold natChars
  by_cases hn : n = 0
  · simp [hn]
  · rw [if_neg hn, if_neg hn, natCharsAux_eq_digits n n le_rfl]

theorem digitChar_isDigit {d : ℕ} (h : d < 10) : (Nat.digitChar d).isDigit = true := by
  interval_cases d <;> decide

theorem digitChar_toNat {d : ℕ} (h : d < 10) : (Nat.digitChar d).toNat - 48 = d := by
  interval_cases d <;> decide

theorem natChars_all_digits (n : ℕ) : ∀ c ∈ natChars n, c.isDigit = true := by
  rw [natChars_eq]
  by_cases hn : n = 0
  · simp only [hn, if_pos]
    intro c hc
    simp only [List.mem_singleton] at hc
    subst hc
    decide
  · rw [if_neg hn]
    intro c hc
    rw [List.mem_reverse, List.mem_map] at hc
    obtain ⟨d, hd, rfl⟩ := hc
    exact digitChar_isDigit (Nat.digits_lt_base (by norm_num) hd)

theorem natChars_ne_nil (n : ℕ) : natChars n ≠ [] := by
  rw [natChars_eq]
  by_cases hn : n = 0
  · simp [hn]
  · rw [if_neg hn]
    simp only [ne_eq, List.reverse_eq_nil_iff, List.map_eq_nil_iff]
    exact Nat.digits_ne_nil_iff_ne_zero.mpr hn

theorem dash_not_digit_mem (l : List Char) (h : ∀ c ∈ l, c.isDigit = true) : '-' ∉ l := by
  intro hmem
  have := h '-' hmem
  simp [Char.isDigit] at this

theorem takeWhile_all {p : Char → Bool} {l : List Char} (h : ∀ a ∈ l, p a = true) :
    l.takeWhile p = l := by
  induction l with
  | nil => rfl
  | cons x xs ih =>
    rw [List.takeWhile_cons, h x (List.mem_cons_self x xs)]
    rw [ih (fun a ha => h a (List.mem_cons_of_mem x ha))]
    simp

/-- Leading decimal-digit run of a character list, as a number
(none when there is no leading digit); the core of JavaScript `parseInt`. -/
def parseNatPrefix (cs : List Char) : Option ℕ :=
  let ds := cs.takeWhile Char.isDigit
  if ds.isEmpty then none
  else some (ds.foldl (fun a c => 10 * a + (c.toNat - 48)) 0)

/-- A JavaScript number that is either an integer or NaN. -/
inductive JSNum where
  | int : ℤ → JSNum
  | nan : JSNum
deriving DecidableEq, Repr

/-- JavaScript `String(v)` of a JSNum. -/
def JSNum.render : JSNum → List Char
  | .int n => intChars n
  | .nan => ['N', 'a', 'N']

/-- JavaScript `parseInt(s, 10)` (without whitespace trimming, which no key
of this system needs): an optional sign followed by the longest run of
digits; NaN when there is no digit. -/
def jsParseInt (s : List Char) : JSNum :=
  match s with
  | [] => .nan
  | c :: rest =>
    if c = '-' then
      match parseNatPrefix rest with
      | some n => .int (-(n : ℤ))
      | none => .nan
    else if c = '+' then
      match parseNatPrefix rest with
      | some n => .int (n : ℤ)
      | none => .nan
    else
      match parseNatPrefix (c :: rest) with
      | some n => .int (n : ℤ)
      | none => .nan

theorem foldr_digits (l : List ℕ) (h : ∀ d ∈ l, d < 10) :
    (l.map Nat.digitChar).foldr (fun c acc => 10 * acc + (c.toNat - 48)) 0
      = Nat.ofDigits 10 l := by
  induction l with
  | nil => rfl
  | cons d t ih =>
    rw [List.map_cons, List.foldr_cons, ih (fun a ha => h a (List.mem_cons_of_mem d ha)),
      Nat.ofDigits_cons, digitChar_toNat (h d (List.mem_cons_self d t))]
    ring

theorem parseNatPrefix_natChars (n : ℕ) : parseNatPrefix (natChars n) = some n := by
  unfold parseNatPrefix
  rw [takeWhile_all (natChars_all_digits n)]
  rw [if_neg (by simpa [List.isEmpty_iff] using natChars_ne_nil n)]
  congr 1
  rw [natChars_eq]
  by_cases hn : n = 0
  · simp [hn]
  · rw [if_neg hn, List.foldl_reverse]
    have hfold : ∀ (l : List Char),
        l.foldr (fun x acc => 10 * acc + (x.toNat - 48)) 0
          = l.foldr (fun c acc => 10 * acc + (c.toNat - 48)) 0 := fun l => rfl
    rw [hfold, foldr_digits (Nat.digits 10 n)
      (fun d hd => Nat.digits_lt_base (by norm_num) hd), Nat.ofDigits_digits]

theorem natChars_injective {a b : ℕ} (h : natChars a = natChars b) : a = b := by
  have ha := parseNatPrefix_natChars a
  have hb := parseNatPrefix_natChars b
  rw [h, hb] at ha
  exact (Option.some_injective ℕ ha).symm

theorem intChars_ofNat (n : ℕ) : intChars (n : ℤ) = natChars n := by
  unfold intChars
  rw [if_neg (by omega)]
  norm_num

theorem jsParseInt_natChars (n : ℕ) : jsParseInt (natChars n) = .int n := by
  obtain ⟨c, rest, hcr⟩ : ∃ c rest, natChars n = c :: rest := by
    cases hc : natChars n with
    | nil => exact absurd hc (natChars_ne_nil n)
    | cons c rest => exact ⟨c, rest, rfl⟩
  have hdig : c.isDigit = true := natChars_all_digits n c (by rw [hcr]; exact List.mem_cons_self c rest)
  have hc1 : c ≠ '-' := by
    intro hcon
    subst hcon
    simp [Char.isDigit] at hdig
  have hc2 : c ≠ '+' := by
    intro hcon
    subst hcon
    simp [Char.isDigit] at hdig
  rw [hcr]
  show (if c = '-' then _ else if c = '+' then _ else
    match parseNatPrefix (c :: rest) with
    | some n => JSNum.int (n : ℤ)
    | none => JSNum.nan) = JSNum.int n
  rw [if_neg hc1, if_neg hc2, ← hcr, parseNatPrefix_natChars]

/-- JavaScript `s.padStart(2, '0')`. -/
def padTwo (s : List Char) : List Char :=
  if 2 ≤ s.length then s else List.replicate (2 - s.length) '0' ++ s

/-- Source `padMonth(value)`: `String(value).padStart(2, '0')`. -/
def padMonthJS (v : JSNum) : List Char := padTwo v.render

/-- Truthiness of an optional query-string parameter: absent and empty
strings are falsy, all other strings truthy. -/
def jsTruthy : Option (List Char) → Bool
  | none => false
  | some s => !s.isEmpty

/-- The normalised period request produced by `getPeriodConfig`. -/
inductive PeriodConfig where
  | all : PeriodConfig
  | year : JSNum → PeriodConfig
  | month : JSNum → JSNum → PeriodConfig
deriving DecidableEq, Repr

/-- Embedding of `getPeriodConfig(period, year, month)`: note that a present but
non-numeric year or month is kept (as NaN), only missing/empty ones fall
back to the all-time config. -/
def getPeriodConfig (period : List Char) (year month : Option (List Char)) : PeriodConfig :=
  if period = ['y', 'e', 'a', 'r'] ∧ jsTruthy year then
    .year (jsParseInt (year.getD []))
  else if period = ['m', 'o', 'n', 't', 'h'] ∧ jsTruthy year ∧ jsTruthy month then
    .month (jsParseInt (year.getD [])) (jsParseInt (month.getD []))
  else .all

/-- Source `getMonthKey` for the month with index i:
the string year-month with the month zero-padded to two digits. -/
def monthKeyChars (i : ℤ) : List Char :=
  intChars (idxYear i) ++ '-' :: padTwo (intChars (idxMonth i))

/-- Embedding of `monthMatchesPeriod(monthKey, periodConfig)`. -/
def monthMatchesPeriod (mk : List Char) (pc : PeriodConfig) : Bool :=
  match pc with
  | .year y => (y.render ++ ['-']).isPrefixOf mk
  | .month y m => decide (mk = y.render ++ '-' :: padMonthJS m)
  | .all => true

theorem prefix_dash_iff (a : List Char) : ∀ (b tail : List Char), '-' ∉ a → '-' ∉ b →
    ((a ++ ['-']) <+: (b ++ '-' :: tail) ↔ a = b) := by
  induction a with
  | nil =>
    intro b tail _ hb
    cases b with
    | nil => simp
    | cons x b2 =>
      simp only [List.nil_append, List.cons_append, List.cons_prefix_cons]
      constructor
      · rintro ⟨rfl, _⟩
        exact absurd (List.mem_cons_self _ _) hb
      · intro hcon
        exact absurd hcon (by simp)
  | cons y a2 ih =>
    intro b tail ha hb
    cases b with
    | nil =>
      simp only [List.cons_append, List.nil_append, List.cons_prefix_cons]
      constructor
      · rintro ⟨rfl, _⟩
        exact absurd (List.mem_cons_self _ _) ha
      · intro hcon
        exact absurd hcon (by simp)
    | cons x b2 =>
      simp only [List.cons_append, List.cons_prefix_cons]
      rw [ih b2 tail (fun hm => ha (List.mem_cons_of_mem y hm))
        (fun hm => hb (List.mem_cons_of_mem x hm))]
      constructor
      · rintro ⟨rfl, rfl⟩
        rfl
      · intro hcon
        injection hcon with h1 h2
        exact ⟨h1, h2⟩

theorem append_dash_inj (a : List Char) : ∀ (b u v : List Char), '-' ∉ a → '-' ∉ b →
    (a ++ '-' :: u = b ++ '-' :: v ↔ a = b ∧ u = v) := by
  induction a with
  | nil =>
    intro b u v _ hb
    cases b with
    | nil => simp
    | cons x b2 =>
      simp only [List.nil_append, List.cons_append]
      constructor
      · intro hcon
        injection hcon with h1 _
        exact absurd (h1 ▸ List.mem_cons_self x b2) hb
      · rintro ⟨hcon, _⟩
        exact absurd hcon (by simp)
  | cons y a2 ih =>
    intro b u v ha hb
    cases b with
    | nil =>
      simp only [List.cons_append, List.nil_append]
      constructor
      · intro hcon
        injection hcon with h1 _
        exact absurd (h1 ▸ List.mem_cons_self y a2) ha
      · rintro ⟨hcon, _⟩
        exact absurd hcon (by simp)
    | cons x b2 =>
      simp only [List.cons_append]
      constructor
      · intro hcon
        injection hcon with h1 h2
        rw [ih b2 u v (fun hm => ha (List.mem_cons_of_mem y hm))
          (fun hm => hb (List.mem_cons_of_mem x hm))] at h2
        exact ⟨by rw [h1, h2.1], h2.2⟩
      · rintro ⟨hcon, rfl⟩
        injection hcon with h1 h2
        rw [h1, h2]

theorem natChars_no_dash (n : ℕ) : '-' ∉ natChars n :=
  dash_not_digit_mem _ (natChars_all_digits n)

theorem intChars_nonneg (n : ℤ) (h : 0 ≤ n) : intChars n = natChars n.toNat := by
  unfold intChars
  rw [if_neg (by omega)]

theorem idxMonth_bounds (i : ℤ) : 1 ≤ idxMonth i ∧ idxMonth i ≤ 12 := by
  unfold idxMonth
  omega

theorem jsTruthy_natChars (n : ℕ) : jsTruthy (some (natChars n)) = true := by
  have h := natChars_ne_nil n
  unfold jsTruthy
  simp [List.isEmpty_iff, h]

theorem padTwo_natChars_inj {a b : ℕ} (ha1 : 1 ≤ a) (ha2 : a ≤ 12)
    (hb1 : 1 ≤ b) (hb2 : b ≤ 12) :
    (padTwo (natChars a) = padTwo (natChars b)) ↔ a = b := by
  interval_cases a <;> interval_cases b <;> decide

theorem getPeriodConfig_year_natChars (yr : ℕ) (m : Option (List Char)) :
    getPeriodConfig ['y', 'e', 'a', 'r'] (some (natChars yr)) m
      = PeriodConfig.year (JSNum.int yr) := by
  unfold getPeriodConfig
  rw [if_pos ⟨rfl, jsTruthy_natChars yr⟩]
  show PeriodConfig.year (jsParseInt (natChars yr)) = _
  rw [jsParseInt_natChars]

theorem getPeriodConfig_month_natChars (yr mo : ℕ) :
    getPeriodConfig ['m', 'o', 'n', 't', 'h'] (some (natChars yr)) (some (natChars mo))
      = PeriodConfig.month (JSNum.int yr) (JSNum.int mo) := by
  unfold getPeriodConfig
  rw [if_neg (fun hcon => absurd hcon.1 (by decide)),
    if_pos ⟨rfl, jsTruthy_natChars yr, jsTruthy_natChars mo⟩]
  show PeriodConfig.month (jsParseInt (natChars yr)) (jsParseInt (natChars mo)) = _
  rw [jsParseInt_natChars, jsParseInt_natChars]

/-- Counterexample for claim C5 as stated: a present but non-numeric year
(here "abc") does not degrade to the always-true all predicate; it produces
the config year(NaN), whose predicate compares keys against the prefix
"NaN-" and rejects every canonical month key (here "2024-03"). -/
theorem claim5_counterexample :
    getPeriodConfig ['y', 'e', 'a', 'r'] (some ['a', 'b', 'c']) none ≠ PeriodConfig.all
      ∧ monthMatchesPeriod (monthKeyChars 2)
          (getPeriodConfig ['y', 'e', 'a', 'r'] (some ['a', 'b', 'c']) none) = false
      ∧ monthMatchesPeriod (monthKeyChars 2) PeriodConfig.all = true :=
  ⟨by decide, by decide, by decide⟩

/-- Claim C5 (amended): the predicate of period "all" accepts every key; a
year request with a numeric year accepts exactly the canonical keys with that
year component; a month request with numeric year and month accepts exactly
the canonical key year-month with the month zero-padded (in particular
makeFilter("month", 2024, 3) accepts only "2024-03", rejecting "2024-04" and
"2023-03"); a MISSING or EMPTY year/month for a non-"all" period degrades to
the all predicate, but a present non-numeric year or month does not: it is
parsed as NaN and the resulting predicate rejects every canonical key. -/
theorem claim5_period_filter (mk : List Char) (y m : Option (List Char))
    (i : ℤ) (yr mo : ℕ) (hy : 0 ≤ idxYear i) (hmo1 : 1 ≤ mo) (hmo2 : mo ≤ 12) :
    (monthMatchesPeriod mk (getPeriodConfig ['a', 'l', 'l'] y m) = true)
      ∧ (getPeriodConfig ['y', 'e', 'a', 'r'] none m = PeriodConfig.all
          ∧ getPeriodConfig ['y', 'e', 'a', 'r'] (some []) m = PeriodConfig.all)
      ∧ (getPeriodConfig ['m', 'o', 'n', 't', 'h'] y none = PeriodConfig.all
          ∧ getPeriodConfig ['m', 'o', 'n', 't', 'h'] y (some []) = PeriodConfig.all)
      ∧ (monthMatchesPeriod (monthKeyChars i)
            (getPeriodConfig ['y', 'e', 'a', 'r'] (some (natChars yr)) m) = true
          ↔ idxYear i = yr)
      ∧ (monthMatchesPeriod (monthKeyChars i)
            (getPeriodConfig ['m', 'o', 'n', 't', 'h'] (some (natChars yr))
              (some (natChars mo))) = true
          ↔ idxYear i = yr ∧ idxMonth i = mo)
      ∧ (monthMatchesPeriod (monthKeyChars i)
            (getPeriodConfig ['y', 'e', 'a', 'r'] (some ['a', 'b', 'c']) m) = false) := by
  have hYt : ((idxYear i).toNat : ℤ) = idxYear i := by omega
  have hMb := idxMonth_bounds i
  have hMt : ((idxMonth i).toNat : ℤ) = idxMonth i := by omega
  have hkey : monthKeyChars i
      = natChars (idxYear i).toNat ++ '-' :: padTwo (natChars (idxMonth i).toNat) := by
    unfold monthKeyChars
    rw [intChars_nonneg _ hy, intChars_nonneg _ (by omega)]
  refine ⟨?_, ⟨?_, ?_⟩, ⟨?_, ?_⟩, ?_, ?_, ?_⟩
  · have : getPeriodConfig ['a', 'l', 'l'] y m = PeriodConfig.all := by
      unfold getPeriodConfig
      rw [if_neg (fun hcon => absurd hcon.1 (by decide)),
        if_neg (fun hcon => absurd hcon.1 (by decide))]
    rw [this]
    rfl
  · unfold getPeriodConfig
    rw [if_neg (fun hcon => by simpa [jsTruthy] using hcon.2),
      if_neg (fun hcon => absurd hcon.1 (by decide))]
  · unfold getPeriodConfig
    rw [if_neg (fun hcon => by simpa [jsTruthy] using hcon.2),
      if_neg (fun hcon => absurd hcon.1 (by decide))]
  · unfold getPeriodConfig
    rw [if_neg (fun hcon => absurd hcon.1 (by decide)),
      if_neg (fun hcon => by simpa [jsTruthy] using hcon.2.2)]
  · unfold getPeriodConfig
    rw [if_neg (fun hcon => absurd hcon.1 (by decide)),
      if_neg (fun hcon => by simpa [jsTruthy] using hcon.2.2)]
  · rw [getPeriodConfig_year_natChars]
    show ((JSNum.int (yr : ℤ)).render ++ ['-']).isPrefixOf (monthKeyChars i) = true ↔ _
    rw [ List.isPrefixOf_iff_prefix]
    show (intChars (yr : ℤ) ++ ['-']) <+: monthKeyChars i ↔ _
    rw [intChars_ofNat, hkey,
      prefix_dash_iff (natChars yr) (natChars (idxYear i).toNat)
        (padTwo (natChars (idxMonth i).toNat)) (natChars_no_dash yr)
        (natChars_no_dash (idxYear i).toNat)]
    constructor
    · intro h
      have := natChars_injective h.symm
      omega
    · intro h
      have : (idxYear i).toNat = yr := by omega
      rw [this]
  · rw [getPeriodConfig_month_natChars]
    show decide (monthKeyChars i
        = (JSNum.int (yr : ℤ)).render ++ '-' :: padMonthJS (JSNum.int (mo : ℤ))) = true ↔ _
    rw [decide_eq_true_eq]
    show monthKeyChars i = intChars (yr : ℤ) ++ '-' :: padTwo (intChars (mo : ℤ)) ↔ _
    rw [intChars_ofNat, intChars_ofNat, hkey,
      append_dash_inj (natChars (idxYear i).toNat) (natChars yr)
        (padTwo (natChars (idxMonth i).toNat)) (padTwo (natChars mo))
        (natChars_no_dash (idxYear i).toNat) (natChars_no_dash yr),
      padTwo_natChars_inj (by omega) (by omega) hmo1 hmo2]
    constructor
    · intro ⟨h1, h2⟩
      have := natChars_injective h1
      omega
    · intro ⟨h1, h2⟩
      constructor
      · have : (idxYear i).toNat = yr := by omega
        rw [this]
      · omega
  · unfold getPeriodConfig
    rw [if_pos ⟨rfl, by decide⟩]
    show (((jsParseInt ['a', 'b', 'c']).render) ++ ['-']).isPrefixOf (monthKeyChars i) = false
    have hparse : jsParseInt ['a', 'b', 'c'] = JSNum.nan := by decide
    rw [hparse, hkey]
    show (['N', 'a', 'N', '-']).isPrefixOf
      (natChars (idxYear i).toNat ++ '-' :: padTwo (natChars (idxMonth i).toNat)) = false
    cases hc : natChars (idxYear i).toNat with
    | nil => exact absurd hc (natChars_ne_nil _)
    | cons c rest =>
      have hdig : c.isDigit = true := natChars_all_digits _ c (by rw [hc]; exact List.mem_cons_self c rest)
      have hcN : c ≠ 'N' := by
        intro hcon
        subst hcon
        simp [Char.isDigit] at hdig
      show (['N', 'a', 'N', '-']).isPrefixOf (c :: (rest ++ '-' :: _)) = false
      rw [Bool.eq_false_iff]
      intro hcon
      rw [ List.isPrefixOf_iff_prefix, List.cons_prefix_cons] at hcon
      exact hcN hcon.1.symm

/-- Witness for claim C5 (amended): the month filter for March 2024 accepts
exactly the key "2024-03" (month index 2), rejecting "2024-04" and "2023-03". -/
theorem claim5_period_filter_witness :
    (0 : ℤ) ≤ idxYear 2 ∧ (1 : ℕ) ≤ 3 ∧ (3 : ℕ) ≤ 12
      ∧ (monthMatchesPeriod (monthKeyChars 2)
            (getPeriodConfig ['m', 'o', 'n', 't', 'h'] (some (natChars 2024))
              (some (natChars 3))) = true
          ↔ idxYear 2 = 2024 ∧ idxMonth 2 = 3)
      ∧ monthMatchesPeriod (monthKeyChars 3)
          (getPeriodConfig ['m', 'o', 'n', 't', 'h'] (some (natChars 2024))
            (some (natChars 3))) = false
      ∧ monthMatchesPeriod (monthKeyChars (-10))
          (getPeriodConfig ['m', 'o', 'n', 't', 'h'] (some (natChars 2024))
            (some (natChars 3))) = false :=
  ⟨by decide, by decide, by decide,
    (claim5_period_filter (monthKeyChars 2) none none 2 2024 3 (by decide) (by decide)
      (by decide)).2.2.2.2.1,
    by decide, by decide⟩

/-- Source `Math.round(Number(depositAmount || 0) * 100)`: the deposit in cents. -/
def jsDepositCents (dep : ℚ) : ℤ := roundHalfUpFrac (dep.num * 100) ((dep.den : ℕ) : ℤ)

/-- One iteration of the deposit ledger inside the applications loop of the
revenue-summary route: state is (outstandingDeposits, releasedDeposits);
`refundedForLease` is the depositRefundMap entry for this lease (0 when
absent); `nowN` is the day number of the request time. -/
def depositStep (nowN : ℤ) (st : ℤ × ℤ) (depositAmount : ℚ)
    (leaseEnd : Option CivilDate) (refundedForLease : ℤ) : ℤ × ℤ :=
  let depositCents := jsDepositCents depositAmount
  if 0 < depositCents then
    let refundedCents := min refundedForLease depositCents
    let heldDeposit := max 0 (depositCents - refundedCents)
    match leaseEnd with
    | some le =>
      if nowN < dayNumber le then (st.1 + heldDeposit, st.2 + refundedCents)
      else (st.1, st.2 + refundedCents + heldDeposit)
    | none => (st.1, st.2 + refundedCents)
  else st

/-- Counterexample for claim C4 as stated: a lease with deposit $10
(1000 cents) and 1500 refunded cents linked to it: the code credits released
with min(1500, 1000) = 1000 cents, not the full 1500 the claim asserts
("always adds refundedCentsForLease to released"). -/
theorem claim4_counterexample :
    depositStep 0 (0, 0) 10 (some ⟨2025, 1, 1⟩) 1500 = (0, 1000)
      ∧ (1000 : ℤ) ≠ 1500 :=
  ⟨by decide, by decide⟩

/-- Claim C4 (amended): for a lease with positive deposit,
held = max(0, depositCents - min(refunded, depositCents)); released gains
min(refundedCentsForLease, depositCents) (the refund credit is clamped to
the deposit, not the raw refunded amount); held is added to outstanding when
the lease end is strictly after now, otherwise to released. -/
theorem claim4_deposit_ledger (nowN out rel : ℤ) (dep : ℚ) (le : CivilDate) (ref : ℤ)
    (hpos : 0 < jsDepositCents dep) :
    (depositStep nowN (out, rel) dep (some le) ref).1
        = out + (if nowN < dayNumber le
            then max 0 (jsDepositCents dep - min ref (jsDepositCents dep)) else 0)
      ∧ (depositStep nowN (out, rel) dep (some le) ref).2
        = rel + min ref (jsDepositCents dep)
            + (if nowN < dayNumber le then 0
                else max 0 (jsDepositCents dep - min ref (jsDepositCents dep))) := by
  by_cases h : nowN < dayNumber le <;>
    simp [depositStep, hpos, h]

/-- Witness for claim C4 (amended): deposit $10, no refunds, future end date
(now = 2024-01-01, lease ends 2025-01-01): outstanding += 1000, released += 0;
and the same lease with a past end date (2023-12-01) releases the 1000. -/
theorem claim4_deposit_ledger_witness :
    0 < jsDepositCents 10
      ∧ (depositStep 0 (0, 0) 10 (some ⟨2025, 1, 1⟩) 0).1
          = 0 + (if (0 : ℤ) < dayNumber ⟨2025, 1, 1⟩
              then max 0 (jsDepositCents 10 - min 0 (jsDepositCents 10)) else 0)
      ∧ depositStep 0 (0, 0) 10 (some ⟨2025, 1, 1⟩) 0 = (1000, 0)
      ∧ depositStep 0 (0, 0) 10 (some ⟨2023, 12, 1⟩) 0 = (0, 1000) :=
  ⟨by decide,
    (claim4_deposit_ledger 0 0 0 10 ⟨2025, 1, 1⟩ 0 (by decide)).1,
    by decide, by decide⟩

/-- One payment record as read by the revenue-summary route.  String
fields are character lists; `creditCardFee` is optional mirroring the
`(payment.creditCardFee || 0)` reads; `refundAmount` is the fallback used by
the deposit refund aggregation (`refund.amount || refund.refundAmount || 0`). -/
structure PaymentRec where
  amount : ℤ
  creditCardFee : Option ℤ
  paymentType : List Char
  status : List Char
  paidAt : Option CivilDate
  applicationId : Option ℕ
  refundCategory : Option (List Char)
  refundAmount : ℤ
deriving DecidableEq

/-- The period request of the route: `req.query` values. -/
structure PeriodRequest where
  period : List Char
  year : Option (List Char)
  month : Option (List Char)

def succeededStr : List Char := ['s', 'u', 'c', 'c', 'e', 'e', 'd', 'e', 'd']

def refundStr : List Char := ['r', 'e', 'f', 'u', 'n', 'd']

def depositStr : List Char := ['d', 'e', 'p', 'o', 's', 'i', 't']

/-- Whole-string decimal parse (used for the paidAt window bounds, where the
raw query strings are interpolated into `new Date(...)` literals). -/
def parseAllDigits (cs : List Char) : Option ℕ :=
  if cs.isEmpty then none
  else if cs.all Char.isDigit then
    some (cs.foldl (fun a c => 10 * a + (c.toNat - 48)) 0)
  else none

/-- A year query string as accepted by `new Date(year + "-01-01")`:
a canonical four-digit year (anything else yields an Invalid Date whose
comparisons are all false). -/
def parse4Year (cs : List Char) : Option ℤ :=
  if cs.length = 4 then (parseAllDigits cs).map (fun n => (n : ℤ)) else none

/-- The `paidAt` date filter the route adds to the payments query
(lines building `dateFilter` from period/year/month).  A year request keeps
payments paid inside the calendar year; a month request keeps payments paid
inside the month (December requests build an Invalid Date upper bound
`year-13-01` and match nothing, as do non-numeric bounds); otherwise no
date restriction.  Missing paidAt never matches a range. -/
def dateFilterPred (req : PeriodRequest) (p : PaymentRec) : Bool :=
  if req.period = ['y', 'e', 'a', 'r'] ∧ jsTruthy req.year then
    match parse4Year (req.year.getD []), p.paidAt with
    | some y, some d =>
        decide (dayNumber ⟨y, 1, 1⟩ ≤ dayNumber d ∧ dayNumber d < dayNumber ⟨y + 1, 1, 1⟩)
    | _, _ => false
  else if req.period = ['m', 'o', 'n', 't', 'h'] ∧ jsTruthy req.year ∧ jsTruthy req.month then
    match parse4Year (req.year.getD []), parseAllDigits (req.month.getD []), p.paidAt with
    | some y, some m, some d =>
        if 1 ≤ m ∧ m + 1 ≤ 12 then
          decide (dayNumber ⟨y, (m : ℤ), 1⟩ ≤ dayNumber d
            ∧ dayNumber d < dayNumber ⟨y, (m : ℤ) + 1, 1⟩)
        else false
    | _, _, _ => false
  else true

/-- The payments the route fetches: status "succeeded" plus the period's
paidAt date filter. -/
def qualifyingPayments (payments : List PaymentRec) (req : PeriodRequest) : List PaymentRec :=
  payments.filter (fun p => decide (p.status = succeededStr) && dateFilterPred req p)

/-- Source `payments.reduce((sum, p) => sum + p.amount, 0)`. -/
def cashTotal (ps : List PaymentRec) : ℤ := ps.foldl (fun s p => s + p.amount) 0

/-- Source `payments.reduce((sum, p) => sum + (p.amount - (p.creditCardFee || 0)), 0)`. -/
def cashNet (ps : List PaymentRec) : ℤ :=
  ps.foldl (fun s p => s + (p.amount - p.creditCardFee.getD 0)) 0

/-- Source `payments.reduce((sum, p) => sum + (p.creditCardFee || 0), 0)`. -/
def cashFees (ps : List PaymentRec) : ℤ := ps.foldl (fun s p => s + p.creditCardFee.getD 0) 0

/-- Refund rows: `paymentType === "refund" || amount < 0`, summing |amount|. -/
def cashRefunds (ps : List PaymentRec) : ℤ :=
  (ps.filter (fun p => decide (p.paymentType = refundStr) || decide (p.amount < 0))).foldl
    (fun s p => s + |p.amount|) 0

/-- Month indices of the fixed trailing 12-month cash window ending at the
month of now (the keys preinitialised in `monthlyRevenue`). -/
def last12Keys (nowIdx : ℤ) : List ℤ :=
  (List.range 12).map (fun (k : ℕ) => nowIdx - 11 + (k : ℤ))

/-- Cash receipts bucketed into one month of the window. -/
def cashMonthAmount (ps : List PaymentRec) (i : ℤ) : ℤ :=
  (ps.map (fun p =>
    match p.paidAt with
    | some d => if monthIdx d = i then p.amount else 0
    | none => 0)).sum

/-- Value of the merged accrual timeline at a month key: the sum of every
lease's allocation for that month (0 when no lease touches it). -/
def accrualAt (apps : List Application) (i : ℤ) : ℤ :=
  (apps.map (fun a => allocCents (calculateAccrualAllocations a) i)).sum

/-- Value of the merged occupancy timeline at a month key. -/
def occupancyAt (apps : List Application) (i : ℤ) : ℤ :=
  (apps.map (fun a => allocNights (calculateAccrualAllocations a) i)).sum

/-- The key set of the merged accrual timeline (the allocator writes the
allocations and nightsByMonth objects together, so the accrual and occupancy
timelines share this key set). -/
def timelineKeys (apps : List Application) : Finset ℤ :=
  ((apps.map (fun a => (calculateAccrualAllocations a).map AllocEntry.month)).flatten).toFinset

/-- The depositRefundMap entry for one application: the summed absolute
amounts of the refund payments with refundCategory "deposit" linked to it
(`Math.abs(refund.amount || refund.refundAmount || 0)` per row, 0 when no
row matches). -/
def depositRefundTotal (payments : List PaymentRec) (aid : ℕ) : ℤ :=
  (payments.filter (fun p => decide (p.paymentType = refundStr)
      && decide (p.refundCategory = some depositStr)
      && decide (p.applicationId = some aid))).foldl
    (fun s p => s + (if p.amount ≠ 0 then |p.amount| else |p.refundAmount|)) 0

/-- Source `monthsCovered.size || (month ? 1 : year ? 12 : (keys.length || 1))`:
the fallback used when no month matched the period. -/
def fallbackMonths (pc : PeriodConfig) (tkCard : ℕ) : ℕ :=
  match pc with
  | .month _ _ => 1
  | .year _ => 12
  | .all => if tkCard ≠ 0 then tkCard else 1

/-- The summary payload assembled by the admin revenue-summary route
(the fields the claims are about; revenueByType, upcomingRevenue and the
recent-payment sample carry no claim and are omitted). -/
structure RevenueSummary where
  totalRevenue : ℤ
  netRevenue : ℤ
  totalFees : ℤ
  refundsTotal : ℤ
  paymentCount : ℕ
  averagePayment : ℚ
  monthlyRevenue : List (ℤ × ℤ)
  accrualMonthlyRevenue : List (ℤ × ℤ)
  occupancyByMonth : List (ℤ × ℤ)
  totalEarned : ℤ
  occupiedNights : ℤ
  averageMonthlyEarned : ℤ
  averageNightlyRate : ℤ
  monthsInPeriod : ℕ
  outstandingDeposits : ℤ
  releasedDeposits : ℤ

/-- The revenue-summary route body (after the two database reads):
computes the cash metrics over the fetched (status + date filtered)
payments, the fixed 12-month cash timeline, the merged accrual/occupancy
timelines with period-scoped totals, and the deposit ledger totals. -/
def revenueSummary (payments : List PaymentRec) (apps : List Application)
    (req : PeriodRequest) (now : CivilDate) : RevenueSummary :=
  let pc := getPeriodConfig req.period req.year req.month
  let ps := qualifyingPayments payments req
  let nowIdx := monthIdx now
  let tk := timelineKeys apps
  let covered := tk.filter (fun i => monthMatchesPeriod (monthKeyChars i) pc = true)
  let totalE := Finset.sum covered (fun i => accrualAt apps i)
  let nights := Finset.sum covered (fun i => occupancyAt apps i)
  let mip := if covered.card ≠ 0 then covered.card else fallbackMonths pc tk.card
  let deps := apps.foldl (fun st a =>
    depositStep (dayNumber now) st a.depositAmount a.endDate
      (depositRefundTotal payments a.appId)) (0, 0)
  { totalRevenue := cashTotal ps
    netRevenue := cashNet ps
    totalFees := cashFees ps
    refundsTotal := cashRefunds ps
    paymentCount := ps.length
    averagePayment := if ps.length ≠ 0 then (cashTotal ps : ℚ) / (ps.length : ℚ) else 0
    monthlyRevenue := (last12Keys nowIdx).map (fun i => (i, cashMonthAmount ps i))
    accrualMonthlyRevenue := (last12Keys nowIdx).map (fun i => (i, accrualAt apps i))
    occupancyByMonth := (last12Keys nowIdx).map (fun i => (i, occupancyAt apps i))
    totalEarned := totalE
    occupiedNights := nights
    averageMonthlyEarned := if 0 < mip then roundHalfUpFrac totalE (mip : ℤ) else 0
    averageNightlyRate := if 0 < nights then roundHalfUpFrac totalE nights else 0
    monthsInPeriod := mip
    outstandingDeposits := deps.1
    releasedDeposits := deps.2 }

theorem foldl_add_sum {α : Type} (f : α → ℤ) (l : List α) (a : ℤ) :
    l.foldl (fun s x => s + f x) a = a + (l.map f).sum := by
  induction l generalizing a with
  | nil => simp
  | cons x xs ih =>
    simp only [List.foldl_cons, List.map_cons, List.sum_cons]
    rw [ih]
    ring

/-- Claim C8: over the fetched succeeded payments, total = sum(amount)
(negative refund rows included), net = sum(amount - fee), fees = sum(fee),
refunds = sum(|amount|) over rows of type "refund" or negative amount,
and average = total / count with 0 when the count is 0. -/
theorem claim8_cash_summary (payments : List PaymentRec) (apps : List Application)
    (req : PeriodRequest) (now : CivilDate) :
    (revenueSummary payments apps req now).totalRevenue
        = ((qualifyingPayments payments req).map (fun p => p.amount)).sum
      ∧ (revenueSummary payments apps req now).netRevenue
        = ((qualifyingPayments payments req).map
            (fun p => p.amount - p.creditCardFee.getD 0)).sum
      ∧ (revenueSummary payments apps req now).totalFees
        = ((qualifyingPayments payments req).map (fun p => p.creditCardFee.getD 0)).sum
      ∧ (revenueSummary payments apps req now).refundsTotal
        = (((qualifyingPayments payments req).filter (fun p =>
            decide (p.paymentType = refundStr) || decide (p.amount < 0))).map
              (fun p => |p.amount|)).sum
      ∧ (revenueSummary payments apps req now).paymentCount
        = (qualifyingPayments payments req).length
      ∧ (revenueSummary payments apps req now).averagePayment
        = (if (qualifyingPayments payments req).length ≠ 0
            then ((((qualifyingPayments payments req).map (fun p => p.amount)).sum : ℤ) : ℚ)
              / ((qualifyingPayments payments req).length : ℚ) else 0) := by
  refine ⟨?_, ?_, ?_, ?_, rfl, ?_⟩
  · show cashTotal (qualifyingPayments payments req) = _
    unfold cashTotal
    rw [foldl_add_sum (fun p : PaymentRec => p.amount) (qualifyingPayments payments req) 0]
    ring
  · show cashNet (qualifyingPayments payments req) = _
    unfold cashNet
    rw [foldl_add_sum (fun p : PaymentRec => p.amount - p.creditCardFee.getD 0)
      (qualifyingPayments payments req) 0]
    ring
  · show cashFees (qualifyingPayments payments req) = _
    unfold cashFees
    rw [foldl_add_sum (fun p : PaymentRec => p.creditCardFee.getD 0)
      (qualifyingPayments payments req) 0]
    ring
  · show cashRefunds (qualifyingPayments payments req) = _
    unfold cashRefunds
    rw [foldl_add_sum (fun p : PaymentRec => |p.amount|)
      ((qualifyingPayments payments req).filter (fun p =>
        decide (p.paymentType = refundStr) || decide (p.amount < 0))) 0]
    ring
  · show (if (qualifyingPayments payments req).length ≠ 0
        then ((cashTotal (qualifyingPayments payments req) : ℤ) : ℚ)
          / ((qualifyingPayments payments req).length : ℚ) else 0) = _
    have h : cashTotal (qualifyingPayments payments req)
        = ((qualifyingPayments payments req).map (fun p => p.amount)).sum := by
      unfold cashTotal
      rw [foldl_add_sum (fun p : PaymentRec => p.amount) (qualifyingPayments payments req) 0]
      ring
    rw [h]

/-- A succeeded rent payment of 500 cents paid on 2023-06-15. -/
def pay1 : PaymentRec :=
  { amount := 500
    creditCardFee := none
    paymentType := ['r', 'e', 'n', 't']
    status := succeededStr
    paidAt := some ⟨2023, 6, 15⟩
    applicationId := none
    refundCategory := none
    refundAmount := 0 }

/-- The period request year=2024. -/
def reqYear2024 : PeriodRequest := ⟨['y', 'e', 'a', 'r'], some ['2', '0', '2', '4'], none⟩

/-- The all-time period request. -/
def reqAll : PeriodRequest := ⟨['a', 'l', 'l'], none, none⟩

/-- Counterexample for claim C6 as stated: the period request is NOT applied
only to accrual quantities.  A payment paid 2023-06-15 contributes 500 to
totalRevenue under the all-time request, but a year=2024 request filters it
out of the database read (the paidAt dateFilter), so the cash summary total
changes with the period request. -/
theorem claim6_counterexample :
    (revenueSummary [pay1] [] reqYear2024 ⟨2024, 5, 1⟩).totalRevenue = 0
      ∧ (revenueSummary [pay1] [] reqAll ⟨2024, 5, 1⟩).totalRevenue = 500
      ∧ (0 : ℤ) ≠ 500 :=
  ⟨by decide, by decide, by decide⟩

/-- Claim C6 (amended): the cash monthly timeline always covers exactly the
fixed trailing 12-month window ending at the month of now, for every period
request; but the period request does reach the cash numbers: the fetched
payments pass the period's paidAt date filter, so the cash summary totals
and the timeline amounts are computed over the date-filtered rows.  Only the
month-key period predicate is accrual-only: the windowed accrual/occupancy
maps do not depend on the period request at all. -/
theorem claim6_cash_window (payments : List PaymentRec) (apps : List Application)
    (req : PeriodRequest) (now : CivilDate) :
    ((revenueSummary payments apps req now).monthlyRevenue.map Prod.fst
        = last12Keys (monthIdx now))
      ∧ (revenueSummary payments apps req now).monthlyRevenue
        = (last12Keys (monthIdx now)).map
            (fun i => (i, cashMonthAmount (qualifyingPayments payments req) i))
      ∧ (revenueSummary payments apps req now).totalRevenue
        = ((qualifyingPayments payments req).map (fun p => p.amount)).sum
      ∧ (∀ req2 : PeriodRequest,
          (revenueSummary payments apps req2 now).accrualMonthlyRevenue
              = (revenueSummary payments apps req now).accrualMonthlyRevenue
            ∧ (revenueSummary payments apps req2 now).occupancyByMonth
              = (revenueSummary payments apps req now).occupancyByMonth) := by
  refine ⟨rfl, rfl, ?_, fun req2 => ⟨rfl, rfl⟩⟩
  show cashTotal (qualifyingPayments payments req) = _
  unfold cashTotal
  rw [foldl_add_sum (fun p : PaymentRec => p.amount) (qualifyingPayments payments req) 0]
  ring

/-- The lease Jan 15 2024 to Mar 10 2024, rent $1000 per month. -/
def app3 : Application :=
  { leaseStartDate := some ⟨2024, 1, 15⟩
    leaseEndDate := some ⟨2024, 3, 10⟩
    requestedStartDate := none
    requestedEndDate := none
    rentalAmount := 1000
    depositAmount := 0
    appId := 2 }

/-- Counterexample for claim C7 as stated: (a) averageMonthlyEarned is the
ROUNDED quotient, not totalEarned / monthsInPeriod: for the three-month
lease app3, totalEarned = 187097 over 3 months and the code reports 62366,
but 187097 / 3 is not 62366; (b) with no accrual months at all and period
"all", the code falls back to monthsInPeriod = 1, not to the number of
accrual months observed (which is 0). -/
theorem claim7_counterexample :
    (revenueSummary [] [app3] reqAll ⟨2024, 5, 1⟩).totalEarned = 187097
      ∧ (revenueSummary [] [app3] reqAll ⟨2024, 5, 1⟩).monthsInPeriod = 3
      ∧ (revenueSummary [] [app3] reqAll ⟨2024, 5, 1⟩).averageMonthlyEarned = 62366
      ∧ ¬ ((62366 : ℚ) = 187097 / 3)
      ∧ (timelineKeys ([] : List Application)).card = 0
      ∧ (revenueSummary [] [] reqAll ⟨2024, 5, 1⟩).monthsInPeriod = 1
      ∧ (1 : ℕ) ≠ 0 :=
  ⟨by decide, by decide, by decide, by norm_num, by decide, by decide, by decide⟩

/-- Claim C7 (amended): monthsInPeriod is the number of distinct month keys
matching the period, with fallback (when that set is empty) 1 for a month
request, 12 for a year request, and max(number of accrual months observed, 1)
for "all"; totalEarned and occupiedNights are the period-filtered timeline
sums; averageMonthlyEarned and averageNightlyRate are ROUNDED quotients
(round-half-up), the latter 0 when there are no occupied nights. -/
theorem claim7_period_totals (payments : List PaymentRec) (apps : List Application)
    (req : PeriodRequest) (now : CivilDate) :
    (revenueSummary payments apps req now).totalEarned
        = Finset.sum ((timelineKeys apps).filter (fun i =>
            monthMatchesPeriod (monthKeyChars i)
              (getPeriodConfig req.period req.year req.month) = true))
          (fun i => accrualAt apps i)
      ∧ (revenueSummary payments apps req now).occupiedNights
        = Finset.sum ((timelineKeys apps).filter (fun i =>
            monthMatchesPeriod (monthKeyChars i)
              (getPeriodConfig req.period req.year req.month) = true))
          (fun i => occupancyAt apps i)
      ∧ (revenueSummary payments apps req now).monthsInPeriod
        = (if ((timelineKeys apps).filter (fun i =>
              monthMatchesPeriod (monthKeyChars i)
                (getPeriodConfig req.period req.year req.month) = true)).card ≠ 0
            then ((timelineKeys apps).filter (fun i =>
              monthMatchesPeriod (monthKeyChars i)
                (getPeriodConfig req.period req.year req.month) = true)).card
            else fallbackMonths (getPeriodConfig req.period req.year req.month)
              (timelineKeys apps).card)
      ∧ (revenueSummary payments apps req now).averageMonthlyEarned
        = (if 0 < (revenueSummary payments apps req now).monthsInPeriod
            then roundHalfUpFrac (revenueSummary payments apps req now).totalEarned
              ((revenueSummary payments apps req now).monthsInPeriod : ℤ) else 0)
      ∧ (revenueSummary payments apps req now).averageNightlyRate
        = (if 0 < (revenueSummary payments apps req now).occupiedNights
            then roundHalfUpFrac (revenueSummary payments apps req now).totalEarned
              (revenueSummary payments apps req now).occupiedNights else 0) :=
  ⟨rfl, rfl, rfl, rfl, rfl⟩

/-- Claim C10: the windowed per-month accrual and occupancy maps have exactly
the key set of the 12-month cash window, each value being the global
timeline entry for that key (0 when absent); accrual months outside the
window never appear in these windowed maps. -/
theorem claim10_windowed_maps (payments : List PaymentRec) (apps : List Application)
    (req : PeriodRequest) (now : CivilDate) :
    ((revenueSummary payments apps req now).accrualMonthlyRevenue.map Prod.fst
        = (revenueSummary payments apps req now).monthlyRevenue.map Prod.fst)
      ∧ ((revenueSummary payments apps req now).occupancyByMonth.map Prod.fst
        = (revenueSummary payments apps req now).monthlyRevenue.map Prod.fst)
      ∧ (revenueSummary payments apps req now).accrualMonthlyRevenue
        = (last12Keys (monthIdx now)).map (fun i => (i, accrualAt apps i))
      ∧ (revenueSummary payments apps req now).occupancyByMonth
        = (last12Keys (monthIdx now)).map (fun i => (i, occupancyAt apps i))
      ∧ (∀ i : ℤ, i ∈ timelineKeys apps → i ∉ last12Keys (monthIdx now) →
          i ∉ (revenueSummary payments apps req now).accrualMonthlyRevenue.map Prod.fst) := by
  refine ⟨rfl, rfl, rfl, rfl, ?_⟩
  intro i _ hni
  have hkeys : (revenueSummary payments apps req now).accrualMonthlyRevenue.map Prod.fst
      = last12Keys (monthIdx now) := rfl
  rw [hkeys]
  exact hni

/-- Witness for claim C10: with now = 2026-01-01 the lease months of app3
(Jan-Mar 2024) lie outside the trailing 12-month window and do not appear in
the windowed accrual map. -/
theorem claim10_windowed_maps_witness :
    (0 : ℤ) ∈ timelineKeys [app3]
      ∧ (0 : ℤ) ∉ last12Keys (monthIdx ⟨2026, 1, 1⟩)
      ∧ (0 : ℤ) ∉ (revenueSummary [] [app3] reqAll
          ⟨2026, 1, 1⟩).accrualMonthlyRevenue.map Prod.fst :=
  ⟨by decide, by decide,
    (claim10_windowed_maps [] [app3] reqAll ⟨2026, 1, 1⟩).2.2.2.2 0 (by decide) (by decide)⟩
